import Mathlib

/-!
Verification of `libkloudtrader/algorithm.py` (KloudTrader) against its
natural-language specification.

The file embeds the two run drivers `run_backtest` and `run_live` of
`src/libkloudtrader/algorithm.py` as pure Lean functions.  External
collaborators (data sources, the intraday market-state endpoint, the crypto
exchange rate-limit lookup) are passed in as function parameters, matching
their role as interfaces in the spec.  `processing.Buffer` and
`backtest.Backtest` live in repository modules that are not part of the
given sources; they are modelled from the specification text, as noted on
their definitions.
-/

set_option linter.unusedVariables false

/-- One market bar: a timestamp (the DataFrame index used by `iterrows`)
and a price payload. -/
structure Bar where
  ts : Nat
  close : Int
deriving DecidableEq

/-- The exception types of `libkloudtrader.exceptions` that
`algorithm.py` imports. -/
inductive KtError
  | invalidCapacity
  | invalidDataFeedType
  | emptySymbolBucket
deriving DecidableEq

/-- Modelled from the spec: `processing.Buffer` is imported by
`algorithm.py` but its module is not among the given sources.  Per spec
section 4.1 (RollingBuffer) it is a bounded FIFO of capacity `C` with
`C < 1` rejected via `InvalidCapacity`; `append` drops the oldest element
before storing the new one once the buffer is at capacity; `snapshot`
returns the contents in insertion order; `popleft` (used by `run_live`)
removes the oldest element. -/
structure Buffer (α : Type) where
  capacity : Nat
  data : List α
deriving DecidableEq

/-- Buffer construction: fails with `InvalidCapacity` when the requested
capacity is below one (spec section 4.1). -/
def Buffer.make (α : Type) (C : Nat) : Except KtError (Buffer α) :=
  if C < 1 then .error .invalidCapacity else .ok ⟨C, []⟩

/-- Current occupancy of the buffer. -/
def Buffer.len (b : Buffer α) : Nat := b.data.length

/-- Append: once at capacity, the oldest element is dropped before the
new one is stored (spec section 4.1). -/
def Buffer.append (b : Buffer α) (x : α) : Buffer α :=
  if b.data.length = b.capacity then ⟨b.capacity, b.data.tail ++ [x]⟩
  else ⟨b.capacity, b.data ++ [x]⟩

/-- Remove the oldest element (deque-style popleft, used at
`algorithm.py` line 144). -/
def Buffer.popleft (b : Buffer α) : Buffer α := ⟨b.capacity, b.data.tail⟩

/-- Contents in insertion order (what `pd.DataFrame(batch)` exposes to the
strategy). -/
def Buffer.snapshot (b : Buffer α) : List α := b.data

/-- Modelled from the spec: `backtest.Backtest` (the ExecutionContext) is
imported by `algorithm.py`, but its module is not among the given sources.
Per spec section 3 it carries capital, commission rate, the slippage flag
and a reference to the external ledger; `update_bar` forwards each bar to
the ledger. -/
structure Backtest where
  capital : Int
  commission : Int
  enable_slippage : Bool
  ledger : List (Nat × Bar)
deriving DecidableEq

/-- `update_bar` (algorithm.py line 52): forwards the bar, keyed by its
timestamp, to the external ledger. -/
def Backtest.update_bar (b : Backtest) (ts : Nat) (bar : Bar) : Backtest :=
  { b with ledger := b.ledger ++ [(ts, bar)] }

/-- One strategy invocation in a backtest run: the ExecutionContext and
the windowed snapshot it was called with (`algorithm.py` line 55). -/
structure BtInvocation where
  ctx : Backtest
  window : List Bar
deriving DecidableEq

/-- Body of the per-bar loop of `run_backtest` (algorithm.py lines 50-55):
append the bar to the rolling buffer, forward it to the execution context,
rebuild the windowed snapshot and record the strategy invocation. -/
def backtest_step (st : Buffer Bar × Backtest × List BtInvocation) (bar : Bar) :
    Buffer Bar × Backtest × List BtInvocation :=
  let batch := st.1.append bar
  let bt := st.2.1.update_bar bar.ts bar
  (batch, bt, st.2.2 ++ [⟨bt, batch.snapshot⟩])

/-- The per-symbol block of `run_backtest` (algorithm.py lines 44-58): the
historical series is fetched, a buffer of capacity equal to the series
length is created, and the execution context is constructed with the
hard-coded arguments of line 49 (`capital=100000, commission=1,
enable_slippage=True`), not with the caller-supplied configuration.  The
result is the list of strategy invocations in order. -/
def run_backtest_symbol (initial_capital commission : Int) (slippage : Bool)
    (series : List Bar) : Except KtError (List BtInvocation) :=
  match Buffer.make Bar series.length with
  | .error e => .error e
  | .ok batch =>
    let backtest : Backtest :=
      { capital := 100000, commission := 1, enable_slippage := true, ledger := [] }
    .ok (series.foldl backtest_step (batch, backtest, [])).2.2

/-- Observable outcome of a whole backtest run: the invocation trace per
symbol, and the log of data-source fetches that were made. -/
structure BtRun where
  traces : List (List BtInvocation)
  fetches : List String
deriving DecidableEq

/-- `run_backtest` (algorithm.py lines 26-58), with the historical data
source abstracted as `fetch`.  Symbols are processed sequentially; the
symbol bucket is never validated for emptiness (the imported
`EmptySymbolBucket` exception is never raised). -/
def run_backtest (symbol_bucket : List String) (fetch : String → List Bar)
    (initial_capital commission : Int) (slippage : Bool) : Except KtError BtRun :=
  symbol_bucket.foldlM
    (fun acc symbol =>
      match run_backtest_symbol initial_capital commission slippage (fetch symbol) with
      | .error e => .error e
      | .ok tr => .ok ⟨acc.traces ++ [tr], acc.fetches ++ [symbol]⟩)
    ⟨[], []⟩

/-- The three feed identifiers accepted by `run_live`
(algorithm.py line 128). -/
def feed_crypto_l1 : String := "CRYPTO_live_feed"

/-- Equities live feed identifier (algorithm.py line 128). -/
def feed_us_stocks : String := "US_STOCKS_live_feed"

/-- Crypto level-2 live feed identifier (algorithm.py line 129). -/
def feed_crypto_l2 : String := "CRYPTO_live_feed_level2"

/-- Pacing delay after the override of algorithm.py lines 133-134: for the
two crypto feed identifiers the caller-supplied constant is replaced by the
exchange-published rate limit; otherwise the caller-supplied constant is
kept. -/
def effective_feed_delay (data_feed_type : String) (data_feed_delay rateLimit : ℚ) : ℚ :=
  if data_feed_type ∈ [feed_crypto_l1, feed_crypto_l2] then rateLimit
  else data_feed_delay

/-- ASCII lower-casing of a label, standing in for Python `str.lower` in
the exemption-list normalization of algorithm.py lines 122-123. -/
def str_lower (s : String) : String := ⟨s.data.map Char.toLower⟩

/-- Mutable state of the live loop: the rolling buffer, the windows passed
to the strategy so far, the number of data-feed calls made, and the number
of times `stocks.intraday_status()` has been evaluated. -/
structure LiveState where
  batch : Buffer Bar
  trace : List (List Bar)
  calls : Nat
  stateChecks : Nat
deriving DecidableEq

/-- Control position of the live loop: about to evaluate the outer
`while` condition (line 136), about to evaluate the inner `while`
condition (line 138), returned normally, or an exception propagated. -/
inductive Phase
  | outerCheck
  | innerCheck
  | finished
  | raised (e : KtError)
deriving DecidableEq

/-- One sweep of the `for symbol in symbol_bucket` body
(algorithm.py lines 139-145): fetch a bar, append it, pass the snapshot to
the strategy, and pop the oldest element when the buffer has just reached
`batch_size`. -/
def live_symbol_step (feed : String → Bool → Nat → Bar) (fake_feed : Bool)
    (batch_size : Nat) (s : LiveState) (symbol : String) : LiveState :=
  let b := s.batch.append (feed symbol fake_feed s.calls)
  let window := b.snapshot
  let b2 := if b.len = batch_size then b.popleft else b
  { batch := b2, trace := s.trace ++ [window], calls := s.calls + 1,
    stateChecks := s.stateChecks }

/-- The full `for symbol in symbol_bucket` sweep is a fold of
`live_symbol_step` over the bucket. -/
def live_sweep (feed : String → Bool → Nat → Bar) (fake_feed : Bool)
    (batch_size : Nat) (symbol_bucket : List String) (s : LiveState) : LiveState :=
  symbol_bucket.foldl (live_symbol_step feed fake_feed batch_size) s

/-- One step of the live loop (algorithm.py lines 136-145).  At the outer
check the market state is polled and compared (case-sensitively) against
`exempted_states`; on entry a fresh buffer of capacity `batch_size` is
created.  At the inner check the loop either performs a full symbol sweep
(when `len(batch) < batch_size`) or falls back to the outer check. -/
def live_step (symbol_bucket : List String) (exempted_states : List String)
    (batch_size : Nat) (feed : String → Bool → Nat → Bar) (fake_feed : Bool)
    (stateAt : Nat → String) : Phase × LiveState → Phase × LiveState
  | (.outerCheck, s) =>
    if stateAt s.stateChecks ∈ exempted_states then
      (.finished, { s with stateChecks := s.stateChecks + 1 })
    else
      match Buffer.make Bar batch_size with
      | .error e => (.raised e, { s with stateChecks := s.stateChecks + 1 })
      | .ok b => (.innerCheck, { s with stateChecks := s.stateChecks + 1, batch := b })
  | (.innerCheck, s) =>
    if s.batch.len < batch_size then
      (.innerCheck, live_sweep feed fake_feed batch_size symbol_bucket s)
    else (.outerCheck, s)
  | m => m

/-- `run_live` (algorithm.py lines 110-145), step-indexed by `fuel` (the
number of loop-condition evaluations allowed; the real loop is unbounded).
The two list comprehensions of lines 122-123 lower-case the exemption
lists but discard the result, exactly as the source does;
`exempted_dates` is never read at all.  An unrecognized feed identifier
raises `InvalidDataFeedType` before the loop (line 130).  The effective
pacing delay (lines 133-134) only feeds `time.sleep` and therefore does
not affect the observable data flow. -/
def run_live (symbol_bucket : List String) (data_feed_type : String)
    (exempted_states exempted_days exempted_dates : List String)
    (batch_size : Nat) (data_feed_delay : ℚ) (fake_feed : Bool)
    (stateAt : Nat → String) (feed : String → Bool → Nat → Bar) (rateLimit : ℚ)
    (fuel : Nat) : Phase × LiveState :=
  let _ := exempted_states.map str_lower
  let _ := exempted_days.map str_lower
  let s0 : LiveState := ⟨⟨batch_size, []⟩, [], 0, 0⟩
  if data_feed_type ∈ [feed_crypto_l1, feed_us_stocks, feed_crypto_l2] then
    let _ := effective_feed_delay data_feed_type data_feed_delay rateLimit
    (live_step symbol_bucket exempted_states batch_size feed fake_feed stateAt)^[fuel]
      (Phase.outerCheck, s0)
  else (Phase.raised .invalidDataFeedType, s0)

/-- The exception classes reaching the failure boundary: the first handler
of algorithm.py lines 94/146 catches `KeyboardInterrupt` and `SystemExit`;
the second catches every `Exception`. -/
inductive PyExc
  | keyboardInterrupt
  | systemExit
  | exc (e : KtError)
deriving DecidableEq

/-- A log record emitted by the failure boundary. -/
structure LogEntry where
  level : String
  msg : String
deriving DecidableEq

/-- Critical-level interrupt message of algorithm.py lines 96-97 / 148-149
(identifies the strategy by name). -/
def interrupt_msg (name : String) : String := "Users keyboard prompt stopped " ++ name

/-- Critical-level failure message of algorithm.py lines 99 / 151. -/
def exiting_msg (name : String) : String := "Exiting " ++ name

/-- Error-level failure message of algorithm.py lines 100-102 / 152. -/
def oops_msg : String := "Oops! Something went wrong"

/-- The failure boundary wrapping both run drivers (algorithm.py lines
94-104 and 146-154): an interrupt is logged at critical level naming the
strategy and the run returns non-exceptionally; any other exception is
logged and then re-raised unchanged. -/
def failure_boundary {α : Type} (name : String) (body : Except PyExc α) :
    Except PyExc (Option α) × List LogEntry :=
  match body with
  | .ok a => (.ok (some a), [])
  | .error .keyboardInterrupt =>
    (.ok none, [{ level := "critical", msg := interrupt_msg name }])
  | .error .systemExit =>
    (.ok none, [{ level := "critical", msg := interrupt_msg name }])
  | .error (.exc e) =>
    (.error (.exc e),
     [{ level := "critical", msg := exiting_msg name },
      { level := "error", msg := oops_msg }])

/-- Timestamp of the most recent bar of a window (zero on an empty
window); used to phrase the delivery order of bars. -/
def lastBarTs (w : List Bar) : Nat :=
  match w.getLast? with
  | some b => b.ts
  | none => 0

/-! ## Buffer lemmas -/

/-- Appending never changes the capacity. -/
theorem Buffer.append_capacity {α : Type} (b : Buffer α) (x : α) :
    (b.append x).capacity = b.capacity := by
  unfold Buffer.append
  split <;> rfl

/-- Appending below capacity stores the new element at the end. -/
theorem Buffer.append_data_of_lt {α : Type} (b : Buffer α) (x : α)
    (h : b.data.length < b.capacity) : (b.append x).data = b.data ++ [x] := by
  unfold Buffer.append
  rw [if_neg (Nat.ne_of_lt h)]

/-- Appending at capacity drops the oldest element first. -/
theorem Buffer.append_data_of_eq {α : Type} (b : Buffer α) (x : α)
    (h : b.data.length = b.capacity) : (b.append x).data = b.data.tail ++ [x] := by
  unfold Buffer.append
  rw [if_pos h]

/-- Appending preserves the capacity across any sequence of appends. -/
theorem buffer_foldl_capacity {α : Type} (xs : List α) :
    ∀ (b : Buffer α), (xs.foldl Buffer.append b).capacity = b.capacity := by
  induction xs with
  | nil => intro b; rfl
  | cons x xs ih =>
    intro b
    rw [List.foldl_cons, ih, Buffer.append_capacity]

/-- Contents of a buffer after an arbitrary sequence of appends: the
suffix of the append history that fits into the capacity (everything
older has been evicted oldest-first). -/
theorem buffer_foldl_data {α : Type} (xs : List α) :
    ∀ (d : List α) (C : Nat), 1 ≤ C → d.length ≤ C →
      (xs.foldl Buffer.append ⟨C, d⟩).data
        = (d ++ xs).drop (d.length + xs.length - C) := by
  induction xs with
  | nil =>
    intro d C hC hd
    simp only [List.foldl_nil, List.append_nil, List.length_nil, Nat.add_zero]
    rw [Nat.sub_eq_zero_of_le hd, List.drop_zero]
  | cons x xs ih =>
    intro d C hC hd
    rcases Nat.lt_or_ge d.length C with hlt | hge
    · have hap : Buffer.append ⟨C, d⟩ x = ⟨C, d ++ [x]⟩ := by
        simp [Buffer.append, Nat.ne_of_lt hlt]
      have hlen : (d ++ [x]).length ≤ C := by
        simp only [List.length_append, List.length_cons, List.length_nil]
        omega
      rw [List.foldl_cons, hap, ih (d ++ [x]) C hC hlen]
      have harr : (d ++ [x]) ++ xs = d ++ (x :: xs) := by
        simp
      have hnum : (d ++ [x]).length + xs.length - C
          = d.length + (x :: xs).length - C := by
        simp only [List.length_append, List.length_cons, List.length_nil]
        omega
      rw [harr, hnum]
    · have heq : d.length = C := Nat.le_antisymm hd hge
      cases d with
      | nil =>
        exfalso
        simp only [List.length_nil] at heq
        omega
      | cons a t =>
        have hap : Buffer.append ⟨C, a :: t⟩ x = ⟨C, t ++ [x]⟩ := by
          simp [Buffer.append, heq]
        have hlen : (t ++ [x]).length ≤ C := by
          simp only [List.length_append, List.length_cons, List.length_nil]
          simp only [List.length_cons] at heq
          omega
        rw [List.foldl_cons, hap, ih (t ++ [x]) C hC hlen]
        have hnum : (t ++ [x]).length + xs.length - C = xs.length := by
          simp only [List.length_append, List.length_cons, List.length_nil]
          simp only [List.length_cons] at heq
          omega
        have hnum2 : (a :: t).length + (x :: xs).length - C = xs.length + 1 := by
          simp only [List.length_cons] at heq ⊢
          omega
        rw [hnum, hnum2]
        have harr : (t ++ [x]) ++ xs = t ++ (x :: xs) := by simp
        rw [harr, List.cons_append, List.drop_succ_cons]

/-- Windows recorded by the backtest per-bar fold: with `done` already in
the buffer and enough capacity for the whole series, processing `rest`
records one strategy invocation per bar, the i-th carrying the window
`done ++ rest.take (i+1)`. -/
theorem backtest_foldl_windows (rest : List Bar) :
    ∀ (done : List Bar) (C : Nat) (bt : Backtest) (acc : List BtInvocation),
      done.length + rest.length ≤ C →
      ((rest.foldl backtest_step (⟨C, done⟩, bt, acc)).2.2).map BtInvocation.window
        = acc.map BtInvocation.window
          ++ (List.range rest.length).map (fun i => done ++ rest.take (i + 1)) := by
  induction rest with
  | nil =>
    intro done C bt acc h
    simp
  | cons bar rest ih =>
    intro done C bt acc h
    have hlt : done.length < C := by
      simp only [List.length_cons] at h
      omega
    have hap : Buffer.append ⟨C, done⟩ bar = ⟨C, done ++ [bar]⟩ := by
      simp [Buffer.append, Nat.ne_of_lt hlt]
    have hstep : backtest_step (⟨C, done⟩, bt, acc) bar
        = (⟨C, done ++ [bar]⟩, bt.update_bar bar.ts bar,
           acc ++ [⟨bt.update_bar bar.ts bar, done ++ [bar]⟩]) := by
      simp [backtest_step, hap, Buffer.snapshot]
    have hlen : (done ++ [bar]).length + rest.length ≤ C := by
      simp only [List.length_append, List.length_cons, List.length_nil]
      simp only [List.length_cons] at h
      omega
    have harg := ih (done ++ [bar]) C (bt.update_bar bar.ts bar)
      (acc ++ [{ ctx := bt.update_bar bar.ts bar, window := done ++ [bar] }]) hlen
    rw [List.foldl_cons, hstep, harg]
    rw [List.length_cons, List.range_succ_eq_map, List.map_cons, List.map_map,
      List.map_append]
    simp only [List.map_cons, List.map_nil, List.take_succ_cons, List.take_zero,
      List.append_assoc, List.singleton_append, List.append_nil]
    simp [Function.comp]

/-- For a nonempty series the per-symbol backtest run succeeds, and the
windows of its invocation trace are exactly the prefixes of the series. -/
theorem run_backtest_symbol_ok (initial_capital commission : Int) (slippage : Bool)
    (series : List Bar) (h : 0 < series.length) :
    ∃ trace : List BtInvocation,
      run_backtest_symbol initial_capital commission slippage series = .ok trace ∧
      trace.map BtInvocation.window
        = (List.range series.length).map (fun i => series.take (i + 1)) := by
  have hmk : Buffer.make Bar series.length = .ok ⟨series.length, []⟩ := by
    unfold Buffer.make
    rw [if_neg]
    omega
  refine ⟨(series.foldl backtest_step
      (⟨series.length, []⟩,
       { capital := 100000, commission := 1, enable_slippage := true, ledger := [] },
       [])).2.2, ?_, ?_⟩
  · unfold run_backtest_symbol
    rw [hmk]
  · have := backtest_foldl_windows series []
      series.length
      { capital := 100000, commission := 1, enable_slippage := true, ledger := [] }
      [] (by simp)
    simpa using this

/-- The last element of a `take (i+1)` prefix is the i-th element. -/
theorem getLast?_take {α : Type} (l : List α) :
    ∀ (i : Nat) (h : i < l.length), (l.take (i + 1)).getLast? = some (l.get ⟨i, h⟩) := by
  induction l with
  | nil =>
    intro i h
    simp at h
  | cons a l ih =>
    intro i h
    cases i with
    | zero => simp
    | succ k =>
      rw [List.take_succ_cons]
      have hk : k < l.length := by
        simp only [List.length_cons] at h
        omega
      have hne : l.take (k + 1) ≠ [] := by
        intro hemp
        have hl := congrArg List.length hemp
        simp only [List.length_take, List.length_nil] at hl
        omega
      cases htk : l.take (k + 1) with
      | nil => exact absurd htk hne
      | cons b t =>
        rw [List.getLast?_cons_cons, ← htk, ih k hk]
        rfl

/-- Evaluation rule for `lastBarTs` on a window with a known last bar. -/
theorem lastBarTs_eq (w : List Bar) (b : Bar) (h : w.getLast? = some b) :
    lastBarTs w = b.ts := by
  unfold lastBarTs
  rw [h]

/-- C1: for every backtest run over a nonempty historical series of `N`
strictly time-ordered bars for one symbol, the strategy is invoked exactly
`N` times with `(ExecutionContext, windowed snapshot)` pairs, the i-th
window being the first `i+1` bars; the delivered bars appear in strictly
increasing timestamp order and the final windowed snapshot contains all
`N` bars of the series. -/
theorem c1_backtest_invocations (initial_capital commission : Int) (slippage : Bool)
    (series : List Bar) (hN : 0 < series.length)
    (hsorted : series.Pairwise (fun a b => a.ts < b.ts)) :
    ∃ tr : List BtInvocation,
      run_backtest_symbol initial_capital commission slippage series = .ok tr ∧
      tr.length = series.length ∧
      (∀ i (hi : i < tr.length), (tr[i]).window = series.take (i + 1)) ∧
      (∀ (hne : tr ≠ []), (tr.getLast hne).window = series) ∧
      (∀ i j (hi : i < tr.length) (hj : j < tr.length), i < j →
        lastBarTs (tr[i]).window < lastBarTs (tr[j]).window) := by
  obtain ⟨tr, hok, hmap⟩ :=
    run_backtest_symbol_ok initial_capital commission slippage series hN
  have hlen : tr.length = series.length := by
    have := congrArg List.length hmap
    simpa using this
  have hwin : ∀ i (hi : i < tr.length), (tr[i]).window = series.take (i + 1) := by
    intro i hi
    have hiN : i < series.length := hlen ▸ hi
    have h1 : some ((tr[i]).window) = some (series.take (i + 1)) := by
      calc some ((tr[i]).window)
          = (tr.map BtInvocation.window)[i]? := by
            rw [List.getElem?_map, List.getElem?_eq_getElem hi]
            rfl
        _ = ((List.range series.length).map (fun k => series.take (k + 1)))[i]? := by
            rw [hmap]
        _ = some (series.take (i + 1)) := by
            rw [List.getElem?_map, List.getElem?_range hiN]
            rfl
    exact Option.some.inj h1
  refine ⟨tr, hok, hlen, hwin, ?_, ?_⟩
  · intro hne
    have hpos : 0 < tr.length := List.length_pos.mpr hne
    have hidx : tr.length - 1 < tr.length := by omega
    rw [List.getLast_eq_getElem tr hne, hwin (tr.length - 1) hidx]
    have hfull : tr.length - 1 + 1 = series.length := by omega
    rw [hfull, List.take_length]
  · intro i j hi hj hij
    have hiN : i < series.length := hlen ▸ hi
    have hjN : j < series.length := hlen ▸ hj
    rw [hwin i hi, hwin j hj,
      lastBarTs_eq _ _ (getLast?_take series i hiN),
      lastBarTs_eq _ _ (getLast?_take series j hjN)]
    exact List.pairwise_iff_get.mp hsorted ⟨i, hiN⟩ ⟨j, hjN⟩ hij

/-- Witness for C1: the conclusion evaluated on a concrete strictly
increasing 3-bar series. -/
theorem c1_backtest_invocations_witness :
    ∃ tr : List BtInvocation,
      run_backtest_symbol 100000 0 true
          [{ ts := 1, close := 10 }, { ts := 2, close := 11 }, { ts := 3, close := 12 }]
        = .ok tr ∧
      tr.length
        = ([{ ts := 1, close := 10 }, { ts := 2, close := 11 },
            { ts := 3, close := 12 }] : List Bar).length ∧
      (∀ i (hi : i < tr.length),
        (tr[i]).window
          = ([{ ts := 1, close := 10 }, { ts := 2, close := 11 },
              { ts := 3, close := 12 }] : List Bar).take (i + 1)) ∧
      (∀ (hne : tr ≠ []),
        (tr.getLast hne).window
          = [{ ts := 1, close := 10 }, { ts := 2, close := 11 },
             { ts := 3, close := 12 }]) ∧
      (∀ i j (hi : i < tr.length) (hj : j < tr.length), i < j →
        lastBarTs (tr[i]).window < lastBarTs (tr[j]).window) :=
  c1_backtest_invocations 100000 0 true
    [{ ts := 1, close := 10 }, { ts := 2, close := 11 }, { ts := 3, close := 12 }]
    (by decide) (by decide)

/-- Removing the oldest element preserves the capacity. -/
theorem Buffer.popleft_capacity {α : Type} (b : Buffer α) :
    (b.popleft).capacity = b.capacity := rfl

/-- Removing the oldest element decrements the occupancy. -/
theorem Buffer.popleft_len {α : Type} (b : Buffer α) :
    (b.popleft).len = b.len - 1 := by
  simp [Buffer.popleft, Buffer.len, List.length_tail]

/-- The snapshot has exactly as many entries as the buffer occupancy. -/
theorem Buffer.snapshot_length {α : Type} (b : Buffer α) :
    b.snapshot.length = b.len := rfl

/-- Effect of one symbol iteration of the live loop on a buffer that has
capacity `bs` and is strictly below it: the capacity and the strict bound
are preserved, the state check counter is untouched, one feed call is
made, and the single recorded window has at most `bs` bars. -/
theorem live_symbol_step_props (feed : String → Bool → Nat → Bar) (fake : Bool)
    (bs : Nat) (hbs : 1 ≤ bs) (s : LiveState) (sym : String)
    (hcap : s.batch.capacity = bs) (hlen : s.batch.len < bs) :
    (live_symbol_step feed fake bs s sym).batch.capacity = bs ∧
    (live_symbol_step feed fake bs s sym).batch.len < bs ∧
    (live_symbol_step feed fake bs s sym).stateChecks = s.stateChecks ∧
    (live_symbol_step feed fake bs s sym).calls = s.calls + 1 ∧
    ∃ w, (live_symbol_step feed fake bs s sym).trace = s.trace ++ [w] ∧
      w.length ≤ bs := by
  have hlt : s.batch.data.length < s.batch.capacity := by
    rw [hcap]
    exact hlen
  have hbdata : (s.batch.append (feed sym fake s.calls)).data
      = s.batch.data ++ [feed sym fake s.calls] :=
    Buffer.append_data_of_lt _ _ hlt
  have hbcap : (s.batch.append (feed sym fake s.calls)).capacity = bs := by
    rw [Buffer.append_capacity, hcap]
  have hblen : (s.batch.append (feed sym fake s.calls)).len ≤ bs := by
    unfold Buffer.len
    rw [hbdata]
    simp only [List.length_append, List.length_cons, List.length_nil]
    have : s.batch.data.length < bs := hlen
    omega
  have hwlen : (s.batch.append (feed sym fake s.calls)).snapshot.length ≤ bs := by
    rw [Buffer.snapshot_length]
    exact hblen
  unfold live_symbol_step
  by_cases heq : (s.batch.append (feed sym fake s.calls)).len = bs
  · simp only [if_pos heq]
    refine ⟨?_, ?_, trivial, trivial,
      ⟨(s.batch.append (feed sym fake s.calls)).snapshot, rfl, hwlen⟩⟩
    · rw [Buffer.popleft_capacity]
      exact hbcap
    · rw [Buffer.popleft_len, heq]
      omega
  · simp only [if_neg heq]
    refine ⟨hbcap, ?_, trivial, trivial,
      ⟨(s.batch.append (feed sym fake s.calls)).snapshot, rfl, hwlen⟩⟩
    omega

/-- Effect of a full symbol sweep: capacity and the strict occupancy
bound are preserved, the state check counter is untouched, and all
recorded windows stay within `bs` bars. -/
theorem live_sweep_props (feed : String → Bool → Nat → Bar) (fake : Bool)
    (bs : Nat) (hbs : 1 ≤ bs) :
    ∀ (bucket : List String) (s : LiveState),
      s.batch.capacity = bs → s.batch.len < bs →
      (live_sweep feed fake bs bucket s).batch.capacity = bs ∧
      (live_sweep feed fake bs bucket s).batch.len < bs ∧
      (live_sweep feed fake bs bucket s).stateChecks = s.stateChecks ∧
      ((∀ w ∈ s.trace, w.length ≤ bs) →
        ∀ w ∈ (live_sweep feed fake bs bucket s).trace, w.length ≤ bs) := by
  intro bucket
  induction bucket with
  | nil =>
    intro s hcap hlen
    exact ⟨hcap, hlen, rfl, fun h => h⟩
  | cons sym bucket ih =>
    intro s hcap hlen
    obtain ⟨h1, h2, h3, h4, w, hw, hwlen⟩ :=
      live_symbol_step_props feed fake bs hbs s sym hcap hlen
    have hfold : live_sweep feed fake bs (sym :: bucket) s
        = live_sweep feed fake bs bucket (live_symbol_step feed fake bs s sym) := by
      simp [live_sweep, List.foldl_cons]
    rw [hfold]
    obtain ⟨g1, g2, g3, g4⟩ := ih (live_symbol_step feed fake bs s sym) h1 h2
    refine ⟨g1, g2, by rw [g3, h3], ?_⟩
    intro htr
    apply g4
    rw [hw]
    intro w2 hw2
    rcases List.mem_append.mp hw2 with h | h
    · exact htr w2 h
    · simp only [List.mem_singleton] at h
      subst h
      exact hwlen

/-- With a recognized feed identifier, `run_live` is the iteration of
`live_step` from the pre-loop state. -/
theorem run_live_eq_iterate (symbol_bucket : List String) (data_feed_type : String)
    (exempted_states exempted_days exempted_dates : List String)
    (batch_size : Nat) (data_feed_delay : ℚ) (fake_feed : Bool)
    (stateAt : Nat → String) (feed : String → Bool → Nat → Bar) (rateLimit : ℚ)
    (fuel : Nat)
    (hdft : data_feed_type ∈ [feed_crypto_l1, feed_us_stocks, feed_crypto_l2]) :
    run_live symbol_bucket data_feed_type exempted_states exempted_days
        exempted_dates batch_size data_feed_delay fake_feed stateAt feed rateLimit fuel
      = (live_step symbol_bucket exempted_states batch_size feed fake_feed stateAt)^[fuel]
          (Phase.outerCheck, ⟨⟨batch_size, []⟩, [], 0, 0⟩) := by
  unfold run_live
  rw [if_pos hdft]

/-- With an unrecognized feed identifier, `run_live` raises
`InvalidDataFeedType` in the untouched pre-loop state. -/
theorem run_live_invalid_feed (symbol_bucket : List String) (data_feed_type : String)
    (exempted_states exempted_days exempted_dates : List String)
    (batch_size : Nat) (data_feed_delay : ℚ) (fake_feed : Bool)
    (stateAt : Nat → String) (feed : String → Bool → Nat → Bar) (rateLimit : ℚ)
    (fuel : Nat)
    (hdft : data_feed_type ∉ [feed_crypto_l1, feed_us_stocks, feed_crypto_l2]) :
    run_live symbol_bucket data_feed_type exempted_states exempted_days
        exempted_dates batch_size data_feed_delay fake_feed stateAt feed rateLimit fuel
      = (Phase.raised .invalidDataFeedType, ⟨⟨batch_size, []⟩, [], 0, 0⟩) := by
  unfold run_live
  rw [if_neg hdft]

/-- Once the loop has finished (or raised), `live_step` is the identity. -/
theorem live_step_fixed_finished (symbol_bucket exempted_states : List String)
    (batch_size : Nat) (feed : String → Bool → Nat → Bar) (fake_feed : Bool)
    (stateAt : Nat → String) (s : LiveState) :
    live_step symbol_bucket exempted_states batch_size feed fake_feed stateAt
      (Phase.finished, s) = (Phase.finished, s) := rfl

/-- `live_step` preserves the buffer capacity, the strict occupancy
bound, and the window-size bound on the recorded trace. -/
theorem live_step_inv (symbol_bucket exempted_states : List String)
    (batch_size : Nat) (feed : String → Bool → Nat → Bar) (fake_feed : Bool)
    (stateAt : Nat → String) (hbs : 1 ≤ batch_size) (m : Phase × LiveState)
    (h1 : m.2.batch.capacity = batch_size) (h2 : m.2.batch.len < batch_size)
    (h3 : ∀ w ∈ m.2.trace, w.length ≤ batch_size) :
    (live_step symbol_bucket exempted_states batch_size feed fake_feed stateAt m).2.batch.capacity
        = batch_size ∧
    (live_step symbol_bucket exempted_states batch_size feed fake_feed stateAt m).2.batch.len
        < batch_size ∧
    ∀ w ∈ (live_step symbol_bucket exempted_states batch_size feed fake_feed stateAt m).2.trace,
      w.length ≤ batch_size := by
  obtain ⟨ph, s⟩ := m
  cases ph with
  | outerCheck =>
    simp only [live_step]
    by_cases hex : stateAt s.stateChecks ∈ exempted_states
    · rw [if_pos hex]
      exact ⟨h1, h2, h3⟩
    · rw [if_neg hex]
      have hmk : Buffer.make Bar batch_size = .ok ⟨batch_size, []⟩ := by
        unfold Buffer.make
        rw [if_neg]
        omega
      rw [hmk]
      refine ⟨rfl, ?_, h3⟩
      show (⟨batch_size, ([] : List Bar)⟩ : Buffer Bar).len < batch_size
      unfold Buffer.len
      simpa using hbs
  | innerCheck =>
    simp only [live_step]
    by_cases hlt : s.batch.len < batch_size
    · rw [if_pos hlt]
      obtain ⟨g1, g2, g3, g4⟩ :=
        live_sweep_props feed fake_feed batch_size hbs symbol_bucket s h1 hlt
      exact ⟨g1, g2, g4 h3⟩
    · rw [if_neg hlt]
      exact ⟨h1, h2, h3⟩
  | finished => exact ⟨h1, h2, h3⟩
  | raised e => exact ⟨h1, h2, h3⟩

/-- The invariant of `live_step_inv` holds at every fuel level of a live
run, for both recognized and unrecognized feed identifiers. -/
theorem run_live_inv (symbol_bucket : List String) (data_feed_type : String)
    (exempted_states exempted_days exempted_dates : List String)
    (batch_size : Nat) (data_feed_delay : ℚ) (fake_feed : Bool)
    (stateAt : Nat → String) (feed : String → Bool → Nat → Bar) (rateLimit : ℚ)
    (hbs : 1 ≤ batch_size) (fuel : Nat) :
    (run_live symbol_bucket data_feed_type exempted_states exempted_days
        exempted_dates batch_size data_feed_delay fake_feed stateAt feed rateLimit
        fuel).2.batch.capacity = batch_size ∧
    (run_live symbol_bucket data_feed_type exempted_states exempted_days
        exempted_dates batch_size data_feed_delay fake_feed stateAt feed rateLimit
        fuel).2.batch.len < batch_size ∧
    ∀ w ∈ (run_live symbol_bucket data_feed_type exempted_states exempted_days
        exempted_dates batch_size data_feed_delay fake_feed stateAt feed rateLimit
        fuel).2.trace, w.length ≤ batch_size := by
  by_cases hdft : data_feed_type ∈ [feed_crypto_l1, feed_us_stocks, feed_crypto_l2]
  · rw [run_live_eq_iterate symbol_bucket data_feed_type exempted_states exempted_days
      exempted_dates batch_size data_feed_delay fake_feed stateAt feed rateLimit fuel hdft]
    induction fuel with
    | zero =>
      refine ⟨rfl, ?_, ?_⟩
      · show (⟨batch_size, ([] : List Bar)⟩ : Buffer Bar).len < batch_size
        unfold Buffer.len
        simpa using hbs
      · intro w hw
        simp at hw
    | succ n ihn =>
      rw [Function.iterate_succ_apply']
      exact live_step_inv symbol_bucket exempted_states batch_size feed fake_feed
        stateAt hbs _ ihn.1 ihn.2.1 ihn.2.2
  · rw [run_live_invalid_feed symbol_bucket data_feed_type exempted_states exempted_days
      exempted_dates batch_size data_feed_delay fake_feed stateAt feed rateLimit fuel hdft]
    refine ⟨rfl, ?_, ?_⟩
    · show (⟨batch_size, ([] : List Bar)⟩ : Buffer Bar).len < batch_size
      unfold Buffer.len
      simpa using hbs
    · intro w hw
      simp at hw

/-- C2: for every RollingBuffer of capacity `C ≥ 1` and every sequence of
appends, the occupancy never exceeds `C`; the contents are the insertion-
ordered suffix of the append history (strict FIFO: once at capacity each
append evicts exactly the oldest element before storing the new one); and
every window the live loop records from its `batch_size` buffer holds at
most `batch_size` bars. -/
theorem c2_rolling_buffer_bounds {α : Type} (C : Nat) (hC : 1 ≤ C)
    (xs : List α) (b : Buffer α) (x : α) (hbcap : b.capacity = C) (hblen : b.len = C)
    (bucket : List String) (dft : String) (sts days dates : List String)
    (bs : Nat) (hbs : 1 ≤ bs) (delay : ℚ) (fake : Bool)
    (stateAt : Nat → String) (feed : String → Bool → Nat → Bar) (rl : ℚ) (fuel : Nat) :
    (xs.foldl Buffer.append ⟨C, []⟩).len ≤ C ∧
    (xs.foldl Buffer.append ⟨C, []⟩).snapshot = xs.drop (xs.length - C) ∧
    (b.append x).snapshot = b.snapshot.tail ++ [x] ∧
    (∀ w ∈ (run_live bucket dft sts days dates bs delay fake stateAt feed rl
        fuel).2.trace, w.length ≤ bs) := by
  have hdata := buffer_foldl_data xs [] C hC (by simp)
  refine ⟨?_, ?_, ?_, ?_⟩
  · show (xs.foldl Buffer.append ⟨C, []⟩).data.length ≤ C
    rw [hdata]
    simp only [List.nil_append, List.length_nil, Nat.zero_add, List.length_drop]
    omega
  · show (xs.foldl Buffer.append ⟨C, []⟩).data = xs.drop (xs.length - C)
    rw [hdata]
    simp
  · have hfull : b.data.length = b.capacity := by
      rw [hbcap]
      exact hblen
    exact Buffer.append_data_of_eq b x hfull
  · exact (run_live_inv bucket dft sts days dates bs delay fake stateAt feed rl
      hbs fuel).2.2

/-- Witness for C2: capacity 3 with five appends, a full buffer of three
elements receiving a fourth, and a live run with batch size 2 observed
for four steps. -/
theorem c2_rolling_buffer_bounds_witness :
    (([1, 2, 3, 4, 5] : List Int).foldl Buffer.append ⟨3, []⟩).len ≤ 3 ∧
    (([1, 2, 3, 4, 5] : List Int).foldl Buffer.append ⟨3, []⟩).snapshot
      = ([1, 2, 3, 4, 5] : List Int).drop (([1, 2, 3, 4, 5] : List Int).length - 3) ∧
    ((⟨3, [10, 20, 30]⟩ : Buffer Int).append 40).snapshot
      = (⟨3, [10, 20, 30]⟩ : Buffer Int).snapshot.tail ++ [40] ∧
    (∀ w ∈ (run_live ["A"] feed_us_stocks [""] [""] [""] 2 1 false
        (fun _ => "open") (fun _ _ n => ⟨n, 0⟩) 0 4).2.trace, w.length ≤ 2) :=
  c2_rolling_buffer_bounds 3 (by decide) ([1, 2, 3, 4, 5] : List Int)
    ⟨3, [10, 20, 30]⟩ 40 (by decide) (by decide) ["A"] feed_us_stocks
    [""] [""] [""] 2 (by decide) 1 false (fun _ => "open")
    (fun _ _ n => ⟨n, 0⟩) 0 4

/-- After entering the inner loop with one state check recorded, every
further `live_step` stays at the inner check: each sweep leaves the
buffer strictly below `batch_size`, so the inner `while` condition never
becomes false and the outer condition is never re-evaluated. -/
theorem live_iter_inner (bucket sts : List String) (bs : Nat)
    (feed : String → Bool → Nat → Bar) (fake : Bool) (stateAt : Nat → String)
    (hbs : 1 ≤ bs) :
    ∀ (k : Nat) (s : LiveState), s.batch.capacity = bs → s.batch.len < bs →
      s.stateChecks = 1 →
      ((live_step bucket sts bs feed fake stateAt)^[k] (Phase.innerCheck, s)).1
          = Phase.innerCheck ∧
      ((live_step bucket sts bs feed fake stateAt)^[k]
          (Phase.innerCheck, s)).2.batch.capacity = bs ∧
      ((live_step bucket sts bs feed fake stateAt)^[k]
          (Phase.innerCheck, s)).2.batch.len < bs ∧
      ((live_step bucket sts bs feed fake stateAt)^[k]
          (Phase.innerCheck, s)).2.stateChecks = 1 := by
  intro k
  induction k with
  | zero =>
    intro s h1 h2 h3
    exact ⟨rfl, h1, h2, h3⟩
  | succ n ihn =>
    intro s h1 h2 h3
    rw [Function.iterate_succ_apply]
    have hstep : live_step bucket sts bs feed fake stateAt (Phase.innerCheck, s)
        = (Phase.innerCheck, live_sweep feed fake bs bucket s) := by
      simp only [live_step]
      rw [if_pos h2]
    rw [hstep]
    obtain ⟨g1, g2, g3, g4⟩ := live_sweep_props feed fake bs hbs bucket s h1 h2
    exact ihn (live_sweep feed fake bs bucket s) g1 g2 (by rw [g3, h3])

/-- When the market state at loop entry is not exempted, the first step
creates the buffer and moves to the inner check with exactly one state
evaluation recorded. -/
theorem live_step_entry (bucket sts : List String) (bs : Nat)
    (feed : String → Bool → Nat → Bar) (fake : Bool) (stateAt : Nat → String)
    (hbs : 1 ≤ bs) (hentry : stateAt 0 ∉ sts) :
    live_step bucket sts bs feed fake stateAt (Phase.outerCheck, ⟨⟨bs, []⟩, [], 0, 0⟩)
      = (Phase.innerCheck, ⟨⟨bs, []⟩, [], 0, 1⟩) := by
  have hmk : Buffer.make Bar bs = .ok ⟨bs, []⟩ := by
    unfold Buffer.make
    rw [if_neg]
    omega
  simp only [live_step]
  rw [if_neg hentry, hmk]

/-- C4: once a live run with a nonzero batch size has passed its single
market-state check, it stays at the inner polling loop forever: the run
never reaches normal termination at any fuel level, the market state is
evaluated at most once, and after the first step the loop sits at the
inner check with the buffer strictly below `batch_size` (each eviction
restores `len(batch) < batch_size`). -/
theorem c4_live_loop_never_reevaluates (bucket : List String) (dft : String)
    (sts days dates : List String) (bs : Nat) (delay : ℚ) (fake : Bool)
    (stateAt : Nat → String) (feed : String → Bool → Nat → Bar) (rl : ℚ)
    (hbs : 1 ≤ bs) (hentry : stateAt 0 ∉ sts)
    (hdft : dft ∈ [feed_crypto_l1, feed_us_stocks, feed_crypto_l2]) (fuel : Nat) :
    (run_live bucket dft sts days dates bs delay fake stateAt feed rl fuel).1
        ≠ Phase.finished ∧
    (run_live bucket dft sts days dates bs delay fake stateAt feed rl
        fuel).2.stateChecks ≤ 1 ∧
    (1 ≤ fuel →
      (run_live bucket dft sts days dates bs delay fake stateAt feed rl fuel).1
          = Phase.innerCheck ∧
      (run_live bucket dft sts days dates bs delay fake stateAt feed rl
          fuel).2.batch.len < bs) := by
  rw [run_live_eq_iterate bucket dft sts days dates bs delay fake stateAt feed rl
    fuel hdft]
  cases fuel with
  | zero =>
    refine ⟨?_, ?_, ?_⟩
    · simp only [Function.iterate_zero_apply]
      decide
    · simp only [Function.iterate_zero_apply]
      decide
    · intro h
      exact absurd h (by decide)
  | succ n =>
    rw [Function.iterate_succ_apply,
      live_step_entry bucket sts bs feed fake stateAt hbs hentry]
    obtain ⟨g1, g2, g3, g4⟩ := live_iter_inner bucket sts bs feed fake stateAt hbs n
      ⟨⟨bs, []⟩, [], 0, 1⟩ rfl
      (by
        show (⟨bs, []⟩ : Buffer Bar).len < bs
        unfold Buffer.len
        simpa using hbs)
      rfl
    refine ⟨?_, ?_, fun _ => ⟨g1, g3⟩⟩
    · rw [g1]
      decide
    · rw [g4]

/-- Witness for C4: a concrete live run with batch size 2, an open market
at entry and a closed-state exemption list, watched for three steps. -/
theorem c4_live_loop_never_reevaluates_witness :
    (run_live ["A"] feed_us_stocks ["closed"] [""] [""] 2 1 false
        (fun _ => "open") (fun _ _ n => ⟨n, 0⟩) 0 3).1 ≠ Phase.finished ∧
    (run_live ["A"] feed_us_stocks ["closed"] [""] [""] 2 1 false
        (fun _ => "open") (fun _ _ n => ⟨n, 0⟩) 0 3).2.stateChecks ≤ 1 ∧
    (1 ≤ 3 →
      (run_live ["A"] feed_us_stocks ["closed"] [""] [""] 2 1 false
          (fun _ => "open") (fun _ _ n => ⟨n, 0⟩) 0 3).1 = Phase.innerCheck ∧
      (run_live ["A"] feed_us_stocks ["closed"] [""] [""] 2 1 false
          (fun _ => "open") (fun _ _ n => ⟨n, 0⟩) 0 3).2.batch.len < 2) :=
  c4_live_loop_never_reevaluates ["A"] feed_us_stocks ["closed"] [""] [""] 2 1 false
    (fun _ => "open") (fun _ _ n => ⟨n, 0⟩) 0 (by decide) (by decide) (by decide) 3

/-- C3 counterexample: with every weekday label and a calendar date in the
exemption lists (and the market state not exempted), the live loop still
advances: the strategy is invoked and the data feed is polled.  The
weekday comparison of line 136 is commented out in the source and
`exempted_dates` is never read, so day/date exemptions cannot stop the
loop. -/
theorem c3_exemptions_counterexample :
    "monday" ∈ ["monday", "tuesday", "wednesday", "thursday", "friday",
        "saturday", "sunday"] ∧
    (run_live ["AAPL"] feed_us_stocks [""]
        ["monday", "tuesday", "wednesday", "thursday", "friday", "saturday",
         "sunday"]
        ["2019-01-01"] 3 1 false (fun _ => "open") (fun _ _ n => ⟨n, 0⟩) 0
        2).2.trace = [[⟨0, 0⟩]] ∧
    (run_live ["AAPL"] feed_us_stocks [""]
        ["monday", "tuesday", "wednesday", "thursday", "friday", "saturday",
         "sunday"]
        ["2019-01-01"] 3 1 false (fun _ => "open") (fun _ _ n => ⟨n, 0⟩) 0
        2).2.calls = 1 := by
  decide

/-- C3 amended: during a live run the strategy is never invoked when the
market state observed at the single pre-loop check is a member of the
exempted-states list (compared case-sensitively); the exempted weekday and
calendar-date lists are never consulted, so the run result is independent
of them. -/
theorem c3_exemptions_amended (bucket : List String) (dft : String)
    (sts days dates days2 dates2 : List String) (bs : Nat) (delay : ℚ)
    (fake : Bool) (stateAt : Nat → String) (feed : String → Bool → Nat → Bar)
    (rl : ℚ) (fuel : Nat) (hstate : stateAt 0 ∈ sts) :
    (run_live bucket dft sts days dates bs delay fake stateAt feed rl
        fuel).2.trace = [] ∧
    run_live bucket dft sts days dates bs delay fake stateAt feed rl fuel
      = run_live bucket dft sts days2 dates2 bs delay fake stateAt feed rl fuel := by
  refine ⟨?_, rfl⟩
  by_cases hdft : dft ∈ [feed_crypto_l1, feed_us_stocks, feed_crypto_l2]
  · rw [run_live_eq_iterate bucket dft sts days dates bs delay fake stateAt feed
      rl fuel hdft]
    cases fuel with
    | zero => rfl
    | succ n =>
      rw [Function.iterate_succ_apply]
      have hstep : live_step bucket sts bs feed fake stateAt
          (Phase.outerCheck, ⟨⟨bs, []⟩, [], 0, 0⟩)
          = (Phase.finished, ⟨⟨bs, []⟩, [], 0, 1⟩) := by
        simp only [live_step]
        rw [if_pos hstate]
      rw [hstep,
        Function.iterate_fixed
          (live_step_fixed_finished bucket sts bs feed fake stateAt _) n]
  · rw [run_live_invalid_feed bucket dft sts days dates bs delay fake stateAt feed
      rl fuel hdft]

/-- Witness for the amended C3: with the market already in an exempted
state at entry, a seven-step run records no strategy invocation and is
unchanged under different weekday and date lists. -/
theorem c3_exemptions_amended_witness :
    (run_live ["A"] feed_us_stocks ["open"] ["x"] ["y"] 5 1 false
        (fun _ => "open") (fun _ _ n => ⟨n, 0⟩) 0 7).2.trace = [] ∧
    run_live ["A"] feed_us_stocks ["open"] ["x"] ["y"] 5 1 false
        (fun _ => "open") (fun _ _ n => ⟨n, 0⟩) 0 7
      = run_live ["A"] feed_us_stocks ["open"] ["p"] ["q"] 5 1 false
        (fun _ => "open") (fun _ _ n => ⟨n, 0⟩) 0 7 :=
  c3_exemptions_amended ["A"] feed_us_stocks ["open"] ["x"] ["y"] ["p"] ["q"]
    5 1 false (fun _ => "open") (fun _ _ n => ⟨n, 0⟩) 0 7 (by decide)

/-- C5 evaluation: with an empty symbol bucket, `run_backtest` returns
normally with no fetch and no invocation instead of failing, and
`run_live` (with a recognized feed) neither raises `EmptySymbolBucket`
nor invokes the strategy at any fuel level: it spins forever between the
loop checks with an empty buffer.  Neither driver ever raises
`EmptySymbolBucket`. -/
theorem c5_empty_bucket_behavior (fetch : String → List Bar) (ic cm : Int)
    (sl : Bool) (fuel : Nat) :
    run_backtest [] fetch ic cm sl = .ok ⟨[], []⟩ ∧
    ((run_live [] feed_us_stocks [""] [""] [""] 1000 1 false (fun _ => "open")
        (fun _ _ n => ⟨n, 0⟩) 0 fuel).1 = Phase.outerCheck ∨
      (run_live [] feed_us_stocks [""] [""] [""] 1000 1 false (fun _ => "open")
        (fun _ _ n => ⟨n, 0⟩) 0 fuel).1 = Phase.innerCheck) ∧
    (run_live [] feed_us_stocks [""] [""] [""] 1000 1 false (fun _ => "open")
        (fun _ _ n => ⟨n, 0⟩) 0 fuel).2.trace = [] ∧
    (run_live [] feed_us_stocks [""] [""] [""] 1000 1 false (fun _ => "open")
        (fun _ _ n => ⟨n, 0⟩) 0 fuel).2.calls = 0 := by
  refine ⟨rfl, ?_⟩
  rw [run_live_eq_iterate [] feed_us_stocks [""] [""] [""] 1000 1 false
    (fun _ => "open") (fun _ _ n => ⟨n, 0⟩) 0 fuel (by decide)]
  cases fuel with
  | zero => exact ⟨Or.inl rfl, rfl, rfl⟩
  | succ n =>
    rw [Function.iterate_succ_apply]
    have hstep1 : live_step [] [""] 1000 (fun _ _ n => ⟨n, 0⟩) false
        (fun _ => "open") (Phase.outerCheck, ⟨⟨1000, []⟩, [], 0, 0⟩)
        = (Phase.innerCheck, ⟨⟨1000, []⟩, [], 0, 1⟩) := by
      decide
    have hfix : live_step [] [""] 1000 (fun _ _ n => ⟨n, 0⟩) false
        (fun _ => "open") (Phase.innerCheck, ⟨⟨1000, []⟩, [], 0, 1⟩)
        = (Phase.innerCheck, ⟨⟨1000, []⟩, [], 0, 1⟩) := by
      decide
    rw [hstep1, Function.iterate_fixed hfix n]
    exact ⟨Or.inr rfl, rfl, rfl⟩

/-- C6 evaluation: the state label `open` does match the caller-supplied
exemption list `[OPEN]` after lower-casing, yet the live run advances and
invokes the strategy, because the lower-cased copies computed at lines
122-123 are discarded and the membership test of line 136 uses the
original, case-sensitive list (`exempted_dates` is never lower-cased nor
read at all). -/
theorem c6_lowercase_discarded :
    "open" ∈ (["OPEN"].map str_lower) ∧
    (run_live ["BTCUSD"] feed_us_stocks ["OPEN"] [""] [""] 2 1 false
        (fun _ => "open") (fun _ _ n => ⟨n, 0⟩) 0 2).2.trace = [[⟨0, 0⟩]] := by
  decide

/-- C7 evaluation: a backtest called with initial capital 50000,
commission 7 and slippage disabled still hands the strategy an execution
context built with the hard-coded values of line 49: capital 100000,
commission 1, slippage enabled. -/
theorem c7_backtest_config_ignored :
    run_backtest ["AAPL"] (fun _ => [⟨1, 5⟩]) 50000 7 false
      = .ok ⟨[[{ ctx := { capital := 100000, commission := 1,
                          enable_slippage := true, ledger := [(1, ⟨1, 5⟩)] },
                 window := [⟨1, 5⟩] }]], ["AAPL"]⟩ := by
  rfl

/-- C8: a live run whose feed identifier is not one of the three
recognized identifiers raises `InvalidDataFeedType` in the pre-loop state:
no strategy invocation, no feed call, no market-state check. -/
theorem c8_invalid_feed_rejected (dft : String)
    (hdft : dft ∉ [feed_crypto_l1, feed_us_stocks, feed_crypto_l2])
    (bucket : List String) (sts days dates : List String) (bs : Nat) (delay : ℚ)
    (fake : Bool) (stateAt : Nat → String) (feed : String → Bool → Nat → Bar)
    (rl : ℚ) (fuel : Nat) :
    run_live bucket dft sts days dates bs delay fake stateAt feed rl fuel
      = (Phase.raised KtError.invalidDataFeedType, ⟨⟨bs, []⟩, [], 0, 0⟩) :=
  run_live_invalid_feed bucket dft sts days dates bs delay fake stateAt feed rl
    fuel hdft

/-- Witness for C8: the identifier `unknown_feed` is rejected before the
loop. -/
theorem c8_invalid_feed_rejected_witness :
    run_live ["AAPL"] "unknown_feed" [""] [""] [""] 10 1 false (fun _ => "open")
        (fun _ _ n => ⟨n, 0⟩) 0 5
      = (Phase.raised KtError.invalidDataFeedType, ⟨⟨10, []⟩, [], 0, 0⟩) :=
  c8_invalid_feed_rejected "unknown_feed" (by decide) ["AAPL"] [""] [""] [""]
    10 1 false (fun _ => "open") (fun _ _ n => ⟨n, 0⟩) 0 5

/-- C9: the pacing delay is the exchange-derived rate limit (replacing
the caller-supplied constant) for both crypto feed identifiers, and the
caller-supplied constant for the equities feed, the only other recognized
identifier. -/
theorem c9_effective_delay (d r : ℚ) :
    effective_feed_delay feed_crypto_l1 d r = r ∧
    effective_feed_delay feed_crypto_l2 d r = r ∧
    effective_feed_delay feed_us_stocks d r = d := by
  unfold effective_feed_delay
  rw [if_pos (by decide), if_pos (by decide), if_neg (by decide)]
  exact ⟨rfl, rfl, rfl⟩

/-- C10: the failure boundary turns an interrupt into a non-exceptional
return after logging one critical entry identifying the strategy by name,
and re-raises any other exception unchanged after logging; a normal body
result passes through with no log. -/
theorem c10_failure_boundary_behavior {α : Type} (name : String) (a : α)
    (e : KtError) :
    failure_boundary name (Except.ok a) = (Except.ok (some a), []) ∧
    failure_boundary name (Except.error PyExc.keyboardInterrupt : Except PyExc α)
      = (Except.ok none, [{ level := "critical", msg := interrupt_msg name }]) ∧
    failure_boundary name (Except.error PyExc.systemExit : Except PyExc α)
      = (Except.ok none, [{ level := "critical", msg := interrupt_msg name }]) ∧
    failure_boundary name (Except.error (PyExc.exc e) : Except PyExc α)
      = (Except.error (PyExc.exc e),
         [{ level := "critical", msg := exiting_msg name },
          { level := "error", msg := oops_msg }]) :=
  ⟨rfl, rfl, rfl, rfl⟩
